import Mathlib

/-!
Verification of the JJWaveView waveform-rendering core.

The repository ships two headers: `ArkWaveView.h` (the view class, the
`ArkWaveData` / `ArkWaveRegion` structs, the `ArkWaveDataSource` protocol)
and `Utility.h` (the `ark::Log` diagnostic sink).  The algorithmic core
(waveform reduction, rasterization, image-cache policy, draw pipeline) is
declared but not implemented under `src/`; those parts are modelled from
the specification, as marked on each definition.
-/

namespace ArkWave

/-! ## Data model from `ArkWaveView.h` -/

/-- `ARK_MAX_CHANNELS` from `ArkWaveView.h`: the compile-time size of the
`buffers` array in `ArkWaveData` (default, macro not overridden). -/
def ARK_MAX_CHANNELS : Nat := 2

/-- `ArkWaveData` from `ArkWaveView.h`: data returned by a data source.
The C struct holds a fixed array `void* buffers[ARK_MAX_CHANNELS]`, a
`bufferCount`, a `frameCount` and a `sampleFormat`.  Each buffer is
modelled as a sequence of (already decoded) sample values. -/
structure ArkWaveData where
  buffers : List (List ℚ)
  bufferCount : Nat
  frameCount : Nat
  sampleFormat : Int

/-- Well-formedness of an `ArkWaveData` value: the `buffers` array has the
fixed compile-time size `ARK_MAX_CHANNELS`, and `bufferCount` counts valid
entries of that array, so it cannot index past its end. -/
def ArkWaveData.WF (d : ArkWaveData) : Prop :=
  d.buffers.length = ARK_MAX_CHANNELS ∧ d.bufferCount ≤ d.buffers.length

/-- `ArkWaveRegion` from `ArkWaveView.h`: `{channel, begin, length}`, all
C `int` fields. -/
structure ArkWaveRegion where
  channel : Int
  begin : Int
  length : Int
deriving DecidableEq

/-- Region validity from the spec: `length >= 0`, `begin >= 0`. -/
def ArkWaveRegion.Valid (r : ArkWaveRegion) : Prop :=
  0 ≤ r.length ∧ 0 ≤ r.begin

/-- The `ArkWaveChannel` enum from `ArkWaveView.h`
(`Left`, `Right`, `Mono`, `Stereo`, `All`). -/
inductive ArkWaveChannel
  | Left
  | Right
  | Mono
  | Stereo
  | All
deriving DecidableEq

/-- The `ArkWaveSampleFormat` enum from `ArkWaveView.h`. -/
inductive ArkWaveSampleFormat
  | Float32
  | Short16
deriving DecidableEq
end ArkWave

namespace ark

/-! ## Diagnostic sink from `Utility.h` -/

/-- `ARK_LOG_THRESHOLD` from `Utility.h` (default value of the
configurable macro). -/
def ARK_LOG_THRESHOLD : Nat := 1

/-- `ark::Log` from `Utility.h`, parametrized by the configured threshold
macro `ARK_LOG_THRESHOLD`.  The C++ body prints `msg` (plus a newline when
`fl`) exactly when `thresh >= ARK_LOG_THRESHOLD`; we return the emitted
output as a list of strings (empty when the message is dropped).  The
mutex only serializes the print and does not affect the emitted text. -/
def Log (threshold : Nat) (msg : String) (thresh : Nat := 1) (fl : Bool := true) :
    List String :=
  if thresh ≥ threshold then
    if fl then [msg, "\n"] else [msg]
  else []

end ark

namespace ArkWave

/-! ## WaveformReducer, modelled from the spec (§4.1)

The reducer implementation is not under `src/`; `ArkWaveView.h` only
declares `drawSampleBuffers:withChannelCount:frameCount:...`.  Everything
in this section is modelled from the spec. -/

/-- `ReducedColumn` from the spec: one output pixel column's
`{min, max}` amplitude summary (normalized to `[-1,1]`). -/
structure ReducedColumn where
  min : ℚ
  max : ℚ
deriving DecidableEq

/-- Modelled from the spec: 16-bit integer samples are normalized to the
`[-1,1]` float domain by dividing by the format's maximum magnitude;
32-bit float samples are used as-is. -/
def normalizeSample (fmt : ArkWaveSampleFormat) (v : ℚ) : ℚ :=
  match fmt with
  | .Float32 => v
  | .Short16 => v / 32768

/-- Modelled from the spec: the (normalized) sample of source channel `c`
at absolute frame index `idx`, reading `0` outside the supplied buffers. -/
def sampleAt (buffers : List (List ℚ)) (fmt : ArkWaveSampleFormat)
    (c idx : Nat) : ℚ :=
  normalizeSample fmt ((buffers.getD c []).getD idx 0)

/-- Modelled from the spec: the samples a bucket contributes to one output
channel — all frames `js` of the bucket across all source channels `cs`
being combined into that output channel, offset by the region's `begin`. -/
def framesSamples (buffers : List (List ℚ)) (fmt : ArkWaveSampleFormat)
    (cs : List Nat) (b : Nat) (js : List Nat) : List ℚ :=
  js.flatMap (fun j => cs.map (fun c => sampleAt buffers fmt c (b + j)))

/-- Modelled from the spec: min/max summary of a bucket's samples; a
degenerate (empty) bucket emits `{min:0, max:0}`. -/
def bucketMinMax (xs : List ℚ) : ReducedColumn :=
  match xs with
  | [] => ⟨0, 0⟩
  | x :: rest => ⟨rest.foldl min x, rest.foldl max x⟩

/-- Modelled from the spec: with `L ≥ W` frames and `W` buckets, bucket
`i` starts at frame `i * (L / W)` of the region. -/
def bucketStart (L W i : Nat) : Nat := i * (L / W)

/-- Modelled from the spec: with `L ≥ W`, every bucket holds `L / W`
frames and the last bucket absorbs the remaining `L % W` frames. -/
def bucketLen (L W i : Nat) : Nat :=
  if i + 1 = W then L / W + L % W else L / W

/-- Modelled from the spec: in the zoomed-in regime `L < W`, frame `j`
lands in bucket `j * W / L`, so each bucket receives at most one frame;
`framesInBucket` lists the frames of bucket `i`. -/
def framesInBucket (L W i : Nat) : List Nat :=
  (List.range L).filter (fun j => j * W / L = i)

/-- Modelled from the spec: raw column summaries in the `L < W` regime —
`none` for a bucket that received no source frame. -/
def rawColumns (buffers : List (List ℚ)) (fmt : ArkWaveSampleFormat)
    (cs : List Nat) (b L W : Nat) : List (Option ReducedColumn) :=
  (List.range W).map (fun i =>
    match framesInBucket L W i with
    | [] => none
    | js => some (bucketMinMax (framesSamples buffers fmt cs b js)))

/-- Modelled from the spec: the defined column nearest to index `i` at
exact distance `d` (looking left first, then right). -/
def nearAt (cols : List (Option ReducedColumn)) (i d : Nat) :
    Option ReducedColumn :=
  match (if d ≤ i then cols.getD (i - d) none else none) with
  | some v => some v
  | none => cols.getD (i + d) none

/-- Modelled from the spec: scan distances `d, d+1, …` (bounded by `fuel`)
for the nearest defined column around index `i`. -/
def nearestFrom (cols : List (Option ReducedColumn)) (i : Nat) :
    Nat → Nat → Option ReducedColumn
  | _, 0 => none
  | d, fuel + 1 =>
    match nearAt cols i d with
    | some v => some v
    | none => nearestFrom cols i (d + 1) fuel

/-- Modelled from the spec: a column with no source frame duplicates the
nearest neighboring column's value, so every output pixel is defined. -/
def fillColumn (cols : List (Option ReducedColumn)) (i : Nat) :
    ReducedColumn :=
  match cols.getD i none with
  | some v => v
  | none => (nearestFrom cols i 0 (cols.length + 1)).getD ⟨0, 0⟩

/-- Modelled from the spec: fill every undefined raw column from its
nearest defined neighbor. -/
def fillColumns (cols : List (Option ReducedColumn)) : List ReducedColumn :=
  (List.range cols.length).map (fillColumn cols)

/-- Modelled from the spec (§4.1): reduce the region `[b, b+L)` to `W`
columns for one output channel combining source channels `cs`.  A
zero-length region yields an empty reduction; with `L ≥ W` frames are
partitioned into `W` contiguous buckets (last absorbs the remainder);
with `0 < L < W` each bucket maps to at most one frame and empty columns
duplicate their nearest defined neighbor. -/
def reduceChannel (buffers : List (List ℚ)) (fmt : ArkWaveSampleFormat)
    (cs : List Nat) (b L W : Nat) : List ReducedColumn :=
  if L = 0 then []
  else if W ≤ L then
    (List.range W).map (fun i =>
      bucketMinMax (framesSamples buffers fmt cs b
        (List.range' (bucketStart L W i) (bucketLen L W i))))
  else
    fillColumns (rawColumns buffers fmt cs b L W)

/-- Modelled from the spec: which source channels each output channel
combines, per channel-selection mode.  `Stereo` combines L and R into one
output; `All` yields one output channel per source channel. -/
def outputChannelSets (mode : ArkWaveChannel) (srcCount : Nat) :
    List (List Nat) :=
  match mode with
  | .Left => [[0]]
  | .Right => [[1]]
  | .Mono => [[0]]
  | .Stereo => [[0, 1]]
  | .All => (List.range srcCount).map (fun c => [c])

/-- Modelled from the spec: the full reduction — one `ReducedColumn`
sequence per requested output channel. -/
def reduceMode (buffers : List (List ℚ)) (fmt : ArkWaveSampleFormat)
    (mode : ArkWaveChannel) (srcCount : Nat) (b L W : Nat) :
    List (List ReducedColumn) :=
  (outputChannelSets mode srcCount).map
    (fun cs => reduceChannel buffers fmt cs b L W)

/-- Modelled from the spec: the number of source channels a mode needs
(`Right` reads channel 1, so it needs two; `All` accepts any count). -/
def requiredChannels (mode : ArkWaveChannel) : Nat :=
  match mode with
  | .Left => 1
  | .Right => 2
  | .Mono => 1
  | .Stereo => 2
  | .All => 0

/-- Modelled from the spec (§4.1, §7): the reducer's error kinds. -/
inductive ReduceError
  | DataUnavailable
  | InvalidRegion
deriving DecidableEq

/-- Modelled from the spec: the checked reduction entry point — fails with
`InvalidRegion` when `begin < 0` (or `length < 0`) or the requested
channel mode exceeds the source's reported channel count; otherwise
reduces. -/
def reduceChecked (buffers : List (List ℚ)) (fmt : ArkWaveSampleFormat)
    (mode : ArkWaveChannel) (srcCount : Nat) (reg : ArkWaveRegion)
    (W : Nat) : Except ReduceError (List (List ReducedColumn)) :=
  if reg.begin < 0 ∨ reg.length < 0 ∨ srcCount < requiredChannels mode then
    .error .InvalidRegion
  else
    .ok (reduceMode buffers fmt mode srcCount reg.begin.toNat
          reg.length.toNat W)


/-! ## WaveformRasterizer, modelled from the spec (§4.2) -/

/-- Destination rectangle (`NSRect`-like), in exact rational pixels. -/
structure Rect where
  x : ℚ
  y : ℚ
  w : ℚ
  h : ℚ
deriving DecidableEq

/-- `RenderParams` from the spec: colors, amplitude scale, smoothing and
antialias flags, destination rectangle. -/
structure RenderParams where
  foregroundColor : Nat
  backgroundColor : Nat
  amplitudeScale : ℚ
  smoothing : Bool
  antialias : Bool
  destRect : Rect
deriving DecidableEq

/-- Modelled from the spec: rasterization error kind. -/
inductive RasterError
  | InvalidParams
deriving DecidableEq

/-- Clamp `v` into the interval `[lo, hi]`. -/
def clampQ (lo hi v : ℚ) : ℚ := max lo (min hi v)

/-- One drawn vertical segment: column `x` of channel band `chan`, painted
from `y0` down to `y1` in the foreground color. -/
structure Segment where
  x : Nat
  chan : Nat
  y0 : ℚ
  y1 : ℚ
deriving DecidableEq

/-- Modelled from the spec: the vertical segment of one column — from
`centerY - max*halfHeight*amplitudeScale` to
`centerY - min*halfHeight*amplitudeScale`, clamped against the band's
pixel bounds (clipping, not error). -/
def columnSegment (bandTop bandH scale : ℚ) (chan x : Nat)
    (col : ReducedColumn) : Segment :=
  ⟨x, chan,
   clampQ bandTop (bandTop + bandH)
     (bandTop + bandH / 2 - col.max * (bandH / 2) * scale),
   clampQ bandTop (bandTop + bandH)
     (bandTop + bandH / 2 - col.min * (bandH / 2) * scale)⟩

/-- Modelled from the spec (§4.2): rasterize the reduced columns into
pixel-level draw commands.  Each channel occupies an equal horizontal band
of the destination rectangle's height.  Fails with `InvalidParams` only if
the destination rectangle has non-positive width or height, in which case
no pixels are written; on valid inputs it never fails, clamping
out-of-range numeric results instead. -/
def rasterize (chans : List (List ReducedColumn)) (p : RenderParams) :
    Except RasterError (List Segment) :=
  if p.destRect.w ≤ 0 ∨ p.destRect.h ≤ 0 then .error .InvalidParams
  else
    .ok ((List.range chans.length).flatMap (fun k =>
      (List.range (chans.getD k []).length).map (fun x =>
        columnSegment
          (p.destRect.y + k * (p.destRect.h / chans.length))
          (p.destRect.h / chans.length)
          p.amplitudeScale k x ((chans.getD k []).getD x ⟨0, 0⟩))))

/-! ## ImageCachePolicy, modelled from the spec (§4.3)

`ArkWaveView.h` declares `imageCache`, `imageCacheThreshold`,
`useImageCache`, `drawIntoImageCache`, `createImageCache` but the policy
body is not under `src/`; it is modelled from the spec. -/

/-- Modelled from the spec: the parameters a draw request is keyed by —
destination size, requested channel set, generation stamp of the sample
data. -/
structure CacheKey where
  w : Int
  h : Int
  channels : ArkWaveChannel
  stamp : Nat
deriving DecidableEq

/-- Modelled from the spec: cache states
`Empty → Building → Valid → (Invalidated → Empty)`. -/
inductive CacheState
  | empty
  | building
  | valid (img : List Segment) (vw vh : Int)
      (channelsIncluded : ArkWaveChannel) (stamp : Nat)
  | invalidated
deriving DecidableEq

/-- Modelled from the spec: a draw request hits a `Valid` cache entry when
its destination size differs from `validSize` by at most the configured
threshold (`imageCacheThreshold`) in each dimension, its channel set
equals `channelsIncluded`, and its `generationStamp` is fresh. -/
def cacheHit (thrW thrH vw vh : Int) (ch : ArkWaveChannel) (st : Nat)
    (r : CacheKey) : Bool :=
  decide (|r.w - vw| ≤ thrW) && decide (|r.h - vh| ≤ thrH) &&
  decide (r.channels = ch) && decide (r.stamp = st)

/-- Modelled from the spec (§4.3): service a draw request against the
cache.  On a hit the cached image is reused unchanged (no recomputation);
on a miss (or from any non-`Valid` state) the image is rebuilt and the
cache becomes `Valid` for the request.  Returns
`(new state, image used, recomputed?)`. -/
def cacheStep (thrW thrH : Int) (rebuild : CacheKey → List Segment)
    (s : CacheState) (r : CacheKey) : CacheState × List Segment × Bool :=
  match s with
  | .valid img vw vh ch st =>
      if cacheHit thrW thrH vw vh ch st r then (.valid img vw vh ch st, img, false)
      else (.valid (rebuild r) r.w r.h r.channels r.stamp, rebuild r, true)
  | _ => (.valid (rebuild r) r.w r.h r.channels r.stamp, rebuild r, true)

/-! ## Draw pipeline, modelled from the spec (§5–§7)

`ArkWaveDataSource` in `ArkWaveView.h` declares the
`lockWaveForObject:selection:waveData:` / `unlockWaveForObject:selection:`
pair; the draw path consuming it is not under `src/` and is modelled from
the spec. -/

/-- Result of the data source's `acquire` (`lockWaveForObject:` returning
`BOOL`): the wave data, or `DataUnavailable`. -/
inductive AcqResult
  | ok (data : ArkWaveData)
  | unavailable

/-- Modelled from the spec: the external data source collaborator. -/
structure DrawEnv where
  channelCount : Int
  acquire : ArkWaveRegion → AcqResult

/-- Observable events of one draw request: lock/unlock calls on the data
source and messages sent to the diagnostic sink. -/
inductive DrawEvent
  | acquireOk (r : ArkWaveRegion)
  | acquireFail (r : ArkWaveRegion)
  | release (r : ArkWaveRegion)
  | diag (msg : String)
deriving DecidableEq

/-- Is the event an acquire attempt (successful or failed)? -/
def DrawEvent.isAcquire : DrawEvent → Bool
  | .acquireOk _ => true
  | .acquireFail _ => true
  | _ => false

/-- Modelled from the spec (§7): the error kinds a draw can surface. -/
inductive DrawError
  | InvalidRegion
  | DataUnavailable
  | InvalidParams
deriving DecidableEq

/-- Decode the C `sampleFormat` tag
(`ArkWaveSampleFormat_32BitFloat = 0`, `ArkWaveSampleFormat_16BitShort = 1`). -/
def sampleFormatOf (i : Int) : ArkWaveSampleFormat :=
  if i = 1 then .Short16 else .Float32

/-- Modelled from the spec (§5–§7): one synchronous draw request.
Validates the region, acquires the sample data (a failed acquire aborts
the draw, emits a diagnostic, performs no retry and leaves the cached
image untouched), reduces and rasterizes, and releases the region exactly
once for the successful acquire — also on the rasterizer's failure path.
Returns `(events, cached image after the call, outcome)`. -/
def drawRequest (env : DrawEnv) (mode : ArkWaveChannel)
    (reg : ArkWaveRegion) (W : Nat) (p : RenderParams)
    (cache : Option (List Segment)) :
    List DrawEvent × Option (List Segment) × Except DrawError Unit :=
  if reg.begin < 0 ∨ reg.length < 0 ∨ env.channelCount < requiredChannels mode then
    ([.diag "invalid region"], cache, .error .InvalidRegion)
  else
    match env.acquire reg with
    | .unavailable =>
        ([.acquireFail reg, .diag "data unavailable"], cache,
         .error .DataUnavailable)
    | .ok data =>
        match rasterize
            (reduceMode data.buffers (sampleFormatOf data.sampleFormat) mode
              (min data.bufferCount ARK_MAX_CHANNELS)
              reg.begin.toNat reg.length.toNat W) p with
        | .error _ =>
            ([.acquireOk reg, .diag "invalid params", .release reg], cache,
             .error .InvalidParams)
        | .ok segs =>
            ([.acquireOk reg, .release reg], some segs, .ok ())

/-! ## Helper lemmas -/

/-- Indexing a map over `List.range`. -/
lemma getD_map_range {α : Type} (f : Nat → α) (n i : Nat) (d : α)
    (h : i < n) : ((List.range n).map f).getD i d = f i := by
  have hlen : i < ((List.range n).map f).length := by simpa using h
  rw [List.getD_eq_getElem _ _ hlen]
  simp

/-- The bucket-partition facts the spec states for `L ≥ W`: `W` buckets of
`L / W` frames, the last absorbing the `L % W` remainder, contiguous and
jointly covering all `L` frames; when `L = k * W`, every bucket holds
exactly `k` frames. -/
def BucketPartition (L W : Nat) : Prop :=
  (0 < W → ∑ i ∈ Finset.range W, bucketLen L W i = L) ∧
  (∀ i, i + 1 < W → bucketLen L W i = L / W) ∧
  (0 < W → bucketLen L W (W - 1) = L / W + L % W) ∧
  (∀ i, i < W → bucketStart L W i = ∑ j ∈ Finset.range i, bucketLen L W j) ∧
  (∀ k, 0 < k → L = k * W → ∀ i, i < W → bucketLen L W i = k)

lemma bucketPartition_all (L W : Nat) : BucketPartition L W := by
  refine ⟨?_, ?_, ?_, ?_, ?_⟩
  · intro hW
    have hsplit : ∀ i ∈ Finset.range W,
        bucketLen L W i = L / W + (if i = W - 1 then L % W else 0) := by
      intro i hi
      have hi' := Finset.mem_range.mp hi
      by_cases h : i + 1 = W
      · have he : i = W - 1 := by omega
        unfold bucketLen
        rw [if_pos h, if_pos he]
      · have hne : i ≠ W - 1 := by omega
        unfold bucketLen
        rw [if_neg h, if_neg hne]
        omega
    rw [Finset.sum_congr rfl hsplit, Finset.sum_add_distrib, Finset.sum_const,
        Finset.card_range, smul_eq_mul,
        Finset.sum_ite_eq' (Finset.range W) (W - 1) (fun _ => L % W),
        if_pos (Finset.mem_range.mpr (by omega))]
    have hd := Nat.div_add_mod L W
    omega
  · intro i hi
    unfold bucketLen
    rw [if_neg (by omega : ¬ i + 1 = W)]
  · intro hW
    unfold bucketLen
    rw [if_pos (by omega : W - 1 + 1 = W)]
  · intro i hi
    have hconst : ∀ j ∈ Finset.range i, bucketLen L W j = L / W := by
      intro j hj
      have hj' := Finset.mem_range.mp hj
      unfold bucketLen
      rw [if_neg (by omega : ¬ j + 1 = W)]
    rw [Finset.sum_congr rfl hconst, Finset.sum_const, Finset.card_range,
        smul_eq_mul]
    rfl
  · intro k hk hL i hi
    have hW : 0 < W := by omega
    have hdiv : L / W = k := by rw [hL]; exact Nat.mul_div_left k hW
    have hmod : L % W = 0 := by rw [hL]; exact Nat.mul_mod_left k W
    by_cases h : i + 1 = W <;> simp [bucketLen, h, hdiv, hmod]

lemma reduceChannel_of_le (buffers : List (List ℚ))
    (fmt : ArkWaveSampleFormat) (cs : List Nat) (b L W : Nat)
    (hL : ¬ L = 0) (hW : W ≤ L) :
    reduceChannel buffers fmt cs b L W =
      (List.range W).map (fun i =>
        bucketMinMax (framesSamples buffers fmt cs b
          (List.range' (bucketStart L W i) (bucketLen L W i)))) := by
  unfold reduceChannel
  rw [if_neg hL, if_pos hW]

/-! ## Claims C10, C6, C1 -/

/-- **C10**: the wave data structure returned by a data-source acquire
holds at most `ARK_MAX_CHANNELS = 2` per-channel sample buffers — a
well-formed `ArkWaveData` never has `bufferCount` exceeding `2` — so at
most two channels of sample data pass through one acquire. -/
theorem C10_wave_data_max_channels (d : ArkWaveData) (h : d.WF) :
    d.bufferCount ≤ 2 := by
  rcases h with ⟨h1, h2⟩
  rw [h1] at h2
  exact h2

theorem C10_wave_data_max_channels_witness :
    (ArkWaveData.mk [[], []] 2 0 0).WF ∧
    (ArkWaveData.mk [[], []] 2 0 0).bufferCount ≤ 2 := by
  have hwf : (ArkWaveData.mk [[], []] 2 0 0).WF := ⟨rfl, by decide⟩
  exact ⟨hwf, C10_wave_data_max_channels _ hwf⟩

/-- **C6**: `ark::Log` emits the message iff the severity is at or above
the configured minimum-severity threshold; a call with severity strictly
below the threshold is dropped and produces no output. -/
theorem C6_log_threshold (threshold : Nat) (msg : String) (sev : Nat)
    (fl : Bool) :
    (msg ∈ ark.Log threshold msg sev fl ↔ threshold ≤ sev) ∧
    (sev < threshold → ark.Log threshold msg sev fl = []) := by
  constructor
  · unfold ark.Log
    by_cases h : sev ≥ threshold
    · rw [if_pos h]
      cases fl <;> simp [h]
    · rw [if_neg h]
      simp
      omega
  · intro h
    unfold ark.Log
    rw [if_neg (by omega)]

theorem C6_log_threshold_witness :
    ("m" ∈ ark.Log 1 "m" 2 true) ∧ ark.Log 3 "m" 2 true = [] :=
  ⟨(C6_log_threshold 1 "m" 2 true).1.mpr (by decide),
   (C6_log_threshold 3 "m" 2 true).2 (by decide)⟩

/-- **C1**: for a valid region of length `L > 0` and width `W ≤ L` the
reducer yields exactly `W` columns per requested output channel, each
column `i` summarizing exactly the frames of bucket `i`, where the `W`
buckets of `L / W` frames (last absorbing the `L % W` remainder)
contiguously partition the `L` frames; for `L = k * W` with `k > 0` every
bucket — hence every column — covers exactly `k` frames. -/
theorem C1_reducer_partition (buffers : List (List ℚ))
    (fmt : ArkWaveSampleFormat) (mode : ArkWaveChannel) (srcCount : Nat)
    (reg : ArkWaveRegion) (L W : Nat) (hV : reg.Valid)
    (hreg : reg.length.toNat = L) (hL : 0 < L) (hW : W ≤ L) :
    (∀ out ∈ reduceMode buffers fmt mode srcCount reg.begin.toNat L W,
        out.length = W) ∧
    BucketPartition L W ∧
    reduceMode buffers fmt mode srcCount reg.begin.toNat L W =
      (outputChannelSets mode srcCount).map (fun cs =>
        (List.range W).map (fun i =>
          bucketMinMax (framesSamples buffers fmt cs reg.begin.toNat
            (List.range' (bucketStart L W i) (bucketLen L W i))))) := by
  refine ⟨?_, bucketPartition_all L W, ?_⟩
  · intro out hout
    rcases List.mem_map.mp hout with ⟨cs, hcs, rfl⟩
    rw [reduceChannel_of_le _ _ _ _ _ _ (by omega) hW]
    simp
  · unfold reduceMode
    exact List.map_congr_left
      (fun cs _ => reduceChannel_of_le _ _ _ _ _ _ (by omega) hW)

theorem C1_reducer_partition_witness :
    (∀ out ∈ reduceMode [[1, 2, 3, 4, 5, 6]] .Float32 .Mono 1 0 6 3,
        out.length = 3) ∧
    BucketPartition 6 3 ∧
    reduceMode [[1, 2, 3, 4, 5, 6]] .Float32 .Mono 1 0 6 3 =
      (outputChannelSets .Mono 1).map (fun cs =>
        (List.range 3).map (fun i =>
          bucketMinMax (framesSamples [[1, 2, 3, 4, 5, 6]] .Float32 cs 0
            (List.range' (bucketStart 6 3 i) (bucketLen 6 3 i))))) :=
  C1_reducer_partition [[1, 2, 3, 4, 5, 6]] .Float32 .Mono 1 ⟨2, 0, 6⟩ 6 3
    ⟨by decide, by decide⟩ rfl (by decide) (by decide)

/-! ## Helper lemmas on min/max folds and raw columns -/

lemma foldl_min_le (x : ℚ) (l : List ℚ) : l.foldl min x ≤ x := by
  induction l generalizing x with
  | nil => simp
  | cons a t ih =>
    rw [List.foldl_cons]
    exact le_trans (ih (min x a)) (min_le_left x a)

lemma le_foldl_max (x : ℚ) (l : List ℚ) : x ≤ l.foldl max x := by
  induction l generalizing x with
  | nil => simp
  | cons a t ih =>
    rw [List.foldl_cons]
    exact le_trans (le_max_left x a) (ih (max x a))

lemma bucketMinMax_le (xs : List ℚ) :
    (bucketMinMax xs).min ≤ (bucketMinMax xs).max := by
  cases xs with
  | nil => simp [bucketMinMax]
  | cons x t =>
    simp only [bucketMinMax]
    exact le_trans (foldl_min_le x t) (le_foldl_max x t)

lemma rawColumns_length (buffers : List (List ℚ))
    (fmt : ArkWaveSampleFormat) (cs : List Nat) (b L W : Nat) :
    (rawColumns buffers fmt cs b L W).length = W := by
  simp [rawColumns]

lemma rawColumns_getD_some (buffers : List (List ℚ))
    (fmt : ArkWaveSampleFormat) (cs : List Nat) (b L W j : Nat)
    (v : ReducedColumn)
    (h : (rawColumns buffers fmt cs b L W).getD j none = some v) :
    ∃ js, js ≠ [] ∧ framesInBucket L W j = js ∧
      v = bucketMinMax (framesSamples buffers fmt cs b js) := by
  by_cases hj : j < W
  · unfold rawColumns at h
    rw [getD_map_range _ W j none hj] at h
    revert h
    rcases hfb : framesInBucket L W j with _ | ⟨a, as⟩
    · intro h
      simp at h
    · intro h
      exact ⟨a :: as, by simp, rfl, (Option.some.inj h).symm⟩
  · rw [List.getD_eq_default _ _
      (by rw [rawColumns_length]; omega)] at h
    simp at h

lemma rawColumns_getD_minmax (buffers : List (List ℚ))
    (fmt : ArkWaveSampleFormat) (cs : List Nat) (b L W j : Nat)
    (v : ReducedColumn)
    (h : (rawColumns buffers fmt cs b L W).getD j none = some v) :
    v.min ≤ v.max := by
  obtain ⟨js, _, _, rfl⟩ := rawColumns_getD_some buffers fmt cs b L W j v h
  exact bucketMinMax_le _

/-! ## Helper lemmas on the nearest-neighbor fill -/

lemma nearAt_some {cols : List (Option ReducedColumn)} {i d : Nat}
    {v : ReducedColumn} (h : nearAt cols i d = some v) :
    ∃ j, cols.getD j none = some v := by
  unfold nearAt at h
  revert h
  rcases hif : (if d ≤ i then cols.getD (i - d) none else none) with _ | w
  · intro h
    exact ⟨i + d, h⟩
  · intro h
    obtain rfl : w = v := Option.some.inj h
    by_cases hd : d ≤ i
    · rw [if_pos hd] at hif
      exact ⟨i - d, hif⟩
    · rw [if_neg hd] at hif
      exact absurd hif (by simp)

lemma nearestFrom_some {cols : List (Option ReducedColumn)} {i : Nat} :
    ∀ fuel d v, nearestFrom cols i d fuel = some v →
      ∃ j, cols.getD j none = some v := by
  intro fuel
  induction fuel with
  | zero =>
    intro d v h
    simp [nearestFrom] at h
  | succ n ih =>
    intro d v h
    unfold nearestFrom at h
    revert h
    rcases hna : nearAt cols i d with _ | w
    · intro h
      exact ih (d + 1) v h
    · intro h
      obtain rfl : w = v := Option.some.inj h
      exact nearAt_some hna

lemma nearestFrom_isSome {cols : List (Option ReducedColumn)} {i : Nat} :
    ∀ fuel d e, d ≤ e → e < d + fuel → nearAt cols i e ≠ none →
      (nearestFrom cols i d fuel).isSome = true := by
  intro fuel
  induction fuel with
  | zero =>
    intro d e h1 h2 h3
    omega
  | succ n ih =>
    intro d e h1 h2 h3
    unfold nearestFrom
    rcases hna : nearAt cols i d with _ | w
    · have hne : d ≠ e := fun hde => h3 (hde ▸ hna)
      exact ih (d + 1) e (by omega) (by omega) h3
    · rfl

lemma rawColumns_zero_some (buffers : List (List ℚ))
    (fmt : ArkWaveSampleFormat) (cs : List Nat) (b L W : Nat)
    (hL : 0 < L) (hW : 0 < W) :
    ∃ v, (rawColumns buffers fmt cs b L W).getD 0 none = some v := by
  unfold rawColumns
  rw [getD_map_range _ W 0 none hW]
  rcases hfb : framesInBucket L W 0 with _ | ⟨a, as⟩
  · exfalso
    have h0 : 0 ∈ framesInBucket L W 0 := by
      unfold framesInBucket
      exact List.mem_filter.mpr ⟨List.mem_range.mpr hL, by simp⟩
    rw [hfb] at h0
    simp at h0
  · exact ⟨_, rfl⟩

/-! ## Claims C3 and C4 -/

lemma reduceChannel_minmax (buffers : List (List ℚ))
    (fmt : ArkWaveSampleFormat) (cs : List Nat) (b L W : Nat) :
    ∀ col ∈ reduceChannel buffers fmt cs b L W, col.min ≤ col.max := by
  intro col hcol
  unfold reduceChannel at hcol
  by_cases hL : L = 0
  · rw [if_pos hL] at hcol
    simp at hcol
  · rw [if_neg hL] at hcol
    by_cases hW : W ≤ L
    · rw [if_pos hW] at hcol
      rcases List.mem_map.mp hcol with ⟨i, _, rfl⟩
      exact bucketMinMax_le _
    · rw [if_neg hW] at hcol
      unfold fillColumns at hcol
      rcases List.mem_map.mp hcol with ⟨i, hi, rfl⟩
      unfold fillColumn
      rcases hci : (rawColumns buffers fmt cs b L W).getD i none with _ | v
      · rcases hns : nearestFrom (rawColumns buffers fmt cs b L W) i 0
            ((rawColumns buffers fmt cs b L W).length + 1) with _ | w
        · simp
        · obtain ⟨j, hj⟩ := nearestFrom_some _ _ _ hns
          exact rawColumns_getD_minmax buffers fmt cs b L W j w hj
      · exact rawColumns_getD_minmax buffers fmt cs b L W i v hci

/-- **C3**: for every input (any sample buffers, region offset/length,
channel mode and width `W`), every `ReducedColumn` the reducer produces
satisfies `min ≤ max`. -/
theorem C3_min_le_max (buffers : List (List ℚ)) (fmt : ArkWaveSampleFormat)
    (mode : ArkWaveChannel) (srcCount b L W : Nat) :
    ∀ out ∈ reduceMode buffers fmt mode srcCount b L W,
      ∀ col ∈ out, col.min ≤ col.max := by
  intro out hout col hcol
  rcases List.mem_map.mp hout with ⟨cs, _, rfl⟩
  exact reduceChannel_minmax buffers fmt cs b L W col hcol

theorem C3_min_le_max_witness :
    (((reduceMode [[1, -2], [3, 4]] .Float32 .Stereo 2 0 2 1).getD 0
        []).getD 0 (ReducedColumn.mk 0 0)).min ≤
    (((reduceMode [[1, -2], [3, 4]] .Float32 .Stereo 2 0 2 1).getD 0
        []).getD 0 (ReducedColumn.mk 0 0)).max :=
  C3_min_le_max [[1, -2], [3, 4]] .Float32 .Stereo 2 0 2 1
    ((reduceMode [[1, -2], [3, 4]] .Float32 .Stereo 2 0 2 1).getD 0 [])
    (by decide)
    (((reduceMode [[1, -2], [3, 4]] .Float32 .Stereo 2 0 2 1).getD 0
        []).getD 0 (ReducedColumn.mk 0 0))
    (by decide)

/-- **C4**: a zero-length region is a valid input — the reduction
succeeds (no error) and yields an empty reduction — and a degenerate
bucket of zero frames is summarized as `{min: 0, max: 0}`. -/
theorem C4_zero_length (buffers : List (List ℚ))
    (fmt : ArkWaveSampleFormat) (mode : ArkWaveChannel) (srcCount : Nat)
    (reg : ArkWaveRegion) (W : Nat) (hV : reg.Valid)
    (hch : requiredChannels mode ≤ srcCount) (hL : reg.length = 0) :
    (∃ outs, reduceChecked buffers fmt mode srcCount reg W = .ok outs ∧
       ∀ out ∈ outs, out = []) ∧
    bucketMinMax [] = ⟨0, 0⟩ := by
  obtain ⟨hl, hb⟩ := hV
  constructor
  · refine ⟨reduceMode buffers fmt mode srcCount reg.begin.toNat
      reg.length.toNat W, ?_, ?_⟩
    · unfold reduceChecked
      rw [if_neg (by push_neg; exact ⟨by omega, by omega, by omega⟩)]
    · intro out hout
      rcases List.mem_map.mp hout with ⟨cs, _, rfl⟩
      unfold reduceChannel
      rw [if_pos (by rw [hL]; rfl)]
  · rfl

theorem C4_zero_length_witness :
    (∃ outs, reduceChecked [[]] .Float32 .Left 1 ⟨0, 0, 0⟩ 5 = .ok outs ∧
       ∀ out ∈ outs, out = []) ∧
    bucketMinMax [] = ⟨0, 0⟩ :=
  C4_zero_length [[]] .Float32 .Left 1 ⟨0, 0, 0⟩ 5 ⟨by decide, by decide⟩
    (by decide) rfl

/-! ## Claim C2 -/

lemma reduceChannel_of_lt (buffers : List (List ℚ))
    (fmt : ArkWaveSampleFormat) (cs : List Nat) (b L W : Nat)
    (hL : ¬ L = 0) (hW : ¬ W ≤ L) :
    reduceChannel buffers fmt cs b L W =
      fillColumns (rawColumns buffers fmt cs b L W) := by
  unfold reduceChannel
  rw [if_neg hL, if_neg hW]

lemma fillColumn_copies (buffers : List (List ℚ))
    (fmt : ArkWaveSampleFormat) (cs : List Nat) (b L W : Nat)
    (hL : 0 < L) (hW : 0 < W) (i : Nat) (hi : i < W) :
    (rawColumns buffers fmt cs b L W).getD i none =
      some (fillColumn (rawColumns buffers fmt cs b L W) i) ∨
    ((rawColumns buffers fmt cs b L W).getD i none = none ∧
      ∃ j, j < W ∧ (rawColumns buffers fmt cs b L W).getD j none =
        some (fillColumn (rawColumns buffers fmt cs b L W) i)) := by
  rcases hci : (rawColumns buffers fmt cs b L W).getD i none with _ | v
  · right
    refine ⟨rfl, ?_⟩
    obtain ⟨w, hw⟩ := rawColumns_zero_some buffers fmt cs b L W hL hW
    have hnai : nearAt (rawColumns buffers fmt cs b L W) i i ≠ none := by
      unfold nearAt
      rw [if_pos (le_refl i), Nat.sub_self, hw]
      simp
    have hlen : (rawColumns buffers fmt cs b L W).length = W :=
      rawColumns_length buffers fmt cs b L W
    have hsome := nearestFrom_isSome
      ((rawColumns buffers fmt cs b L W).length + 1) 0 i (Nat.zero_le i)
      (by omega) hnai
    rcases hns : nearestFrom (rawColumns buffers fmt cs b L W) i 0
        ((rawColumns buffers fmt cs b L W).length + 1) with _ | v'
    · rw [hns] at hsome
      simp at hsome
    · obtain ⟨j, hj⟩ := nearestFrom_some _ _ _ hns
      have hjW : j < W := by
        by_contra hjW
        rw [List.getD_eq_default _ _ (by omega : _ ≤ j)] at hj
        · simp at hj
      have hfc : fillColumn (rawColumns buffers fmt cs b L W) i = v' := by
        unfold fillColumn
        rw [hci, hns]
        rfl
      rw [hfc]
      exact ⟨j, hjW, hj⟩
  · left
    have hfc : fillColumn (rawColumns buffers fmt cs b L W) i = v := by
      unfold fillColumn
      rw [hci]
    rw [hfc]

/-- **C2**: for a valid region with `0 < L < W` (and a channel mode the
source's channel count supports) the reducer still returns exactly `W`
columns per output channel without signalling an error, every column via
the nearest-neighbor fill of the raw buckets, and every column is
defined: it carries its own bucket's min/max, or — when its bucket
received no source frame — a copy of a defined neighboring column's
value. -/
theorem C2_reducer_zoomed (buffers : List (List ℚ))
    (fmt : ArkWaveSampleFormat) (mode : ArkWaveChannel) (srcCount : Nat)
    (reg : ArkWaveRegion) (L W : Nat) (hV : reg.Valid)
    (hch : requiredChannels mode ≤ srcCount)
    (hreg : reg.length.toNat = L) (hL : 0 < L) (hW : L < W) :
    reduceChecked buffers fmt mode srcCount reg W =
      .ok (reduceMode buffers fmt mode srcCount reg.begin.toNat L W) ∧
    (∀ out ∈ reduceMode buffers fmt mode srcCount reg.begin.toNat L W,
        out.length = W) ∧
    (∀ cs, reduceChannel buffers fmt cs reg.begin.toNat L W =
      fillColumns (rawColumns buffers fmt cs reg.begin.toNat L W)) ∧
    (∀ cs, ∀ i, i < W →
      (rawColumns buffers fmt cs reg.begin.toNat L W).getD i none =
        some ((reduceChannel buffers fmt cs reg.begin.toNat L W).getD i
          ⟨0, 0⟩) ∨
      ((rawColumns buffers fmt cs reg.begin.toNat L W).getD i none = none ∧
        ∃ j, j < W ∧
          (rawColumns buffers fmt cs reg.begin.toNat L W).getD j none =
            some ((reduceChannel buffers fmt cs reg.begin.toNat L W).getD i
              ⟨0, 0⟩))) := by
  obtain ⟨hl, hb⟩ := hV
  have hL0 : ¬ L = 0 := by omega
  have hWL : ¬ W ≤ L := by omega
  have hcol : ∀ cs i, i < W →
      (reduceChannel buffers fmt cs reg.begin.toNat L W).getD i ⟨0, 0⟩ =
        fillColumn (rawColumns buffers fmt cs reg.begin.toNat L W) i := by
    intro cs i hi
    rw [reduceChannel_of_lt _ _ _ _ _ _ hL0 hWL]
    unfold fillColumns
    rw [rawColumns_length]
    exact getD_map_range _ W i (⟨0, 0⟩ : ReducedColumn) hi
  refine ⟨?_, ?_, ?_, ?_⟩
  · unfold reduceChecked
    rw [if_neg (by push_neg; exact ⟨by omega, by omega, by omega⟩), hreg]
  · intro out hout
    rcases List.mem_map.mp hout with ⟨cs, _, rfl⟩
    rw [reduceChannel_of_lt _ _ _ _ _ _ hL0 hWL]
    unfold fillColumns
    rw [rawColumns_length]
    simp
  · intro cs
    exact reduceChannel_of_lt _ _ _ _ _ _ hL0 hWL
  · intro cs i hi
    rw [hcol cs i hi]
    exact fillColumn_copies buffers fmt cs reg.begin.toNat L W hL
      (by omega) i hi

theorem C2_reducer_zoomed_witness :
    reduceChecked [[10, 20, 30]] .Float32 .Left 1 ⟨0, 0, 3⟩ 8 =
      .ok (reduceMode [[10, 20, 30]] .Float32 .Left 1 0 3 8) ∧
    (∀ out ∈ reduceMode [[10, 20, 30]] .Float32 .Left 1 0 3 8,
        out.length = 8) ∧
    (∀ cs, reduceChannel [[10, 20, 30]] .Float32 cs 0 3 8 =
      fillColumns (rawColumns [[10, 20, 30]] .Float32 cs 0 3 8)) ∧
    (∀ cs, ∀ i, i < 8 →
      (rawColumns [[10, 20, 30]] .Float32 cs 0 3 8).getD i none =
        some ((reduceChannel [[10, 20, 30]] .Float32 cs 0 3 8).getD i
          (ReducedColumn.mk 0 0)) ∨
      ((rawColumns [[10, 20, 30]] .Float32 cs 0 3 8).getD i none = none ∧
        ∃ j, j < 8 ∧
          (rawColumns [[10, 20, 30]] .Float32 cs 0 3 8).getD j none =
            some ((reduceChannel [[10, 20, 30]] .Float32 cs 0 3 8).getD i
              (ReducedColumn.mk 0 0)))) :=
  C2_reducer_zoomed [[10, 20, 30]] .Float32 .Left 1 ⟨0, 0, 3⟩ 3 8
    ⟨by decide, by decide⟩ (by decide) rfl (by decide) (by decide)

/-! ## Claim C5 -/

lemma cacheStep_valid (thrW thrH : Int) (rebuild : CacheKey → List Segment)
    (img : List Segment) (vw vh : Int) (ch : ArkWaveChannel) (st : Nat)
    (r : CacheKey) :
    cacheStep thrW thrH rebuild (.valid img vw vh ch st) r =
      if cacheHit thrW thrH vw vh ch st r
      then (.valid img vw vh ch st, img, false)
      else (.valid (rebuild r) r.w r.h r.channels r.stamp, rebuild r, true) :=
  rfl

/-- **C5**: in the `Valid` cache state a draw request is a hit — the
cached image is reused with no recomputation and the state is unchanged —
exactly when the destination size differs from `validSize` by at most the
threshold in each dimension, the channel set equals `channelsIncluded`,
and the `generationStamp` is fresh; with `validSize = (200,100)` and
threshold `(10,10)`, a request for `(205,105)` is a hit and a request for
`(215,100)` is a miss (recomputes). -/
theorem C5_cache_threshold (thrW thrH : Int)
    (rebuild : CacheKey → List Segment) (img : List Segment) (vw vh : Int)
    (ch : ArkWaveChannel) (st : Nat) (r : CacheKey) :
    (cacheStep thrW thrH rebuild (.valid img vw vh ch st) r =
        (.valid img vw vh ch st, img, false) ↔
      |r.w - vw| ≤ thrW ∧ |r.h - vh| ≤ thrH ∧
        r.channels = ch ∧ r.stamp = st) ∧
    cacheStep 10 10 rebuild (.valid img 200 100 ch st)
        ⟨205, 105, ch, st⟩ = (.valid img 200 100 ch st, img, false) ∧
    (cacheStep 10 10 rebuild (.valid img 200 100 ch st)
        ⟨215, 100, ch, st⟩).2.2 = true := by
  refine ⟨?_, ?_, ?_⟩
  · rw [cacheStep_valid]
    by_cases h : cacheHit thrW thrH vw vh ch st r = true
    · rw [if_pos h]
      simp only [cacheHit, Bool.and_eq_true, decide_eq_true_eq] at h
      constructor
      · intro _
        exact ⟨h.1.1.1, h.1.1.2, h.1.2, h.2⟩
      · intro _
        rfl
    · rw [if_neg h]
      simp only [cacheHit, Bool.and_eq_true, decide_eq_true_eq] at h
      constructor
      · intro heq
        exact absurd (congrArg (fun t => t.2.2) heq) (by simp)
      · intro hp
        exact absurd ⟨⟨⟨hp.1, hp.2.1⟩, hp.2.2.1⟩, hp.2.2.2⟩ h
  · have h : cacheHit 10 10 200 100 ch st ⟨205, 105, ch, st⟩ = true := by
      simp [cacheHit]
    rw [cacheStep_valid, if_pos h]
  · have h : ¬ cacheHit 10 10 200 100 ch st ⟨215, 100, ch, st⟩ = true := by
      simp [cacheHit]
    rw [cacheStep_valid, if_neg h]

/-! ## Claim C7 -/

/-- **C7**: in every execution of a draw request — including the
invalid-region, data-unavailable and rasterizer-failure paths — the
number of `release` (unlock) calls for a region equals the number of
successful acquires of that region: exactly one release per successful
acquire, none for a failed acquire, and no successful acquire left
unreleased. -/
theorem C7_acquire_release_balance (env : DrawEnv) (mode : ArkWaveChannel)
    (reg : ArkWaveRegion) (W : Nat) (p : RenderParams)
    (cache : Option (List Segment)) (r : ArkWaveRegion) :
    (drawRequest env mode reg W p cache).1.count (.release r) =
      (drawRequest env mode reg W p cache).1.count (.acquireOk r) := by
  unfold drawRequest
  split
  · simp [List.count_cons, List.count_nil]
  · rcases henv : env.acquire reg with data | _
    · rcases hr : rasterize (reduceMode data.buffers
          (sampleFormatOf data.sampleFormat) mode
          (min data.bufferCount ARK_MAX_CHANNELS)
          reg.begin.toNat reg.length.toNat W) p with e | segs
      · by_cases hrr : r = reg <;>
          simp [hr, hrr, List.count_cons, List.count_nil]
      · by_cases hrr : r = reg <;>
          simp [hr, hrr, List.count_cons, List.count_nil]
    · simp [List.count_cons, List.count_nil]

/-! ## Claim C8 -/

/-- **C8**: when the data-source acquire fails with `DataUnavailable` for
a well-formed request, the draw call returns without modifying the
existing cached image, surfaces `DataUnavailable`, performs exactly one
acquire attempt (no retry), and emits a diagnostic message. -/
theorem C8_data_unavailable (env : DrawEnv) (mode : ArkWaveChannel)
    (reg : ArkWaveRegion) (W : Nat) (p : RenderParams)
    (cache : Option (List Segment))
    (hreg : ¬(reg.begin < 0 ∨ reg.length < 0 ∨
      env.channelCount < requiredChannels mode))
    (hacq : env.acquire reg = .unavailable) :
    (drawRequest env mode reg W p cache).2.1 = cache ∧
    (drawRequest env mode reg W p cache).2.2 = .error .DataUnavailable ∧
    (drawRequest env mode reg W p cache).1.countP
      (fun e => e.isAcquire) = 1 ∧
    DrawEvent.diag "data unavailable" ∈
      (drawRequest env mode reg W p cache).1 := by
  unfold drawRequest
  rw [if_neg hreg, hacq]
  refine ⟨rfl, rfl, ?_, ?_⟩
  · simp [List.countP_cons, List.countP_nil, DrawEvent.isAcquire]
  · simp

theorem C8_data_unavailable_witness :
    (drawRequest ⟨2, fun _ => .unavailable⟩ .Left ⟨0, 0, 500⟩ 100
      ⟨0, 0, 1, false, false, ⟨0, 0, 100, 50⟩⟩ (some [])).2.1 = some [] ∧
    (drawRequest ⟨2, fun _ => .unavailable⟩ .Left ⟨0, 0, 500⟩ 100
      ⟨0, 0, 1, false, false, ⟨0, 0, 100, 50⟩⟩ (some [])).2.2 =
        .error .DataUnavailable ∧
    (drawRequest ⟨2, fun _ => .unavailable⟩ .Left ⟨0, 0, 500⟩ 100
      ⟨0, 0, 1, false, false, ⟨0, 0, 100, 50⟩⟩ (some [])).1.countP
        (fun e => e.isAcquire) = 1 ∧
    DrawEvent.diag "data unavailable" ∈
      (drawRequest ⟨2, fun _ => .unavailable⟩ .Left ⟨0, 0, 500⟩ 100
        ⟨0, 0, 1, false, false, ⟨0, 0, 100, 50⟩⟩ (some [])).1 :=
  C8_data_unavailable ⟨2, fun _ => .unavailable⟩ .Left ⟨0, 0, 500⟩ 100
    ⟨0, 0, 1, false, false, ⟨0, 0, 100, 50⟩⟩ (some [])
    (by decide) rfl

/-! ## Claim C9 -/

lemma clampQ_bounds (lo hi v : ℚ) (h : lo ≤ hi) :
    lo ≤ clampQ lo hi v ∧ clampQ lo hi v ≤ hi :=
  ⟨le_max_left _ _, max_le h (min_le_left _ _)⟩

/-- **C9**: the rasterizer fails with `InvalidParams` iff the destination
rectangle has non-positive width or height — and then writes no pixels
(the error carries no segments); on every other input it never fails and
every drawn segment is clamped into the destination rectangle's vertical
extent instead of erroring. -/
theorem C9_rasterizer_invalid_params (chans : List (List ReducedColumn))
    (p : RenderParams) :
    ((p.destRect.w ≤ 0 ∨ p.destRect.h ≤ 0) ↔
      rasterize chans p = .error .InvalidParams) ∧
    (0 < p.destRect.w → 0 < p.destRect.h →
      ∃ segs, rasterize chans p = .ok segs ∧
        ∀ s ∈ segs,
          p.destRect.y ≤ s.y0 ∧ s.y0 ≤ p.destRect.y + p.destRect.h ∧
          p.destRect.y ≤ s.y1 ∧ s.y1 ≤ p.destRect.y + p.destRect.h) := by
  constructor
  · constructor
    · intro h
      unfold rasterize
      rw [if_pos h]
    · intro h
      by_contra hc
      unfold rasterize at h
      rw [if_neg hc] at h
      exact absurd h (by simp)
  · intro hw hh
    unfold rasterize
    rw [if_neg (by push_neg; exact ⟨by linarith, by linarith⟩)]
    refine ⟨_, rfl, ?_⟩
    intro s hs
    rcases List.mem_flatMap.mp hs with ⟨k, hk, hs2⟩
    rcases List.mem_map.mp hs2 with ⟨x, hx, rfl⟩
    have hkn : k < chans.length := List.mem_range.mp hk
    have hn0 : (0 : ℚ) < (chans.length : ℚ) := by
      exact_mod_cast (show 0 < chans.length by omega)
    have hbH : 0 ≤ p.destRect.h / (chans.length : ℚ) :=
      le_of_lt (div_pos hh hn0)
    have hlo : p.destRect.y ≤
        p.destRect.y + (k : ℚ) * (p.destRect.h / (chans.length : ℚ)) := by
      have := mul_nonneg (by positivity : (0:ℚ) ≤ (k : ℚ)) hbH
      linarith
    have hhi : p.destRect.y + (k : ℚ) * (p.destRect.h / (chans.length : ℚ))
        + p.destRect.h / (chans.length : ℚ) ≤
        p.destRect.y + p.destRect.h := by
      have h1 : ((k : ℚ) + 1) ≤ (chans.length : ℚ) := by
        exact_mod_cast hkn
      have h2 : ((k : ℚ) + 1) * (p.destRect.h / (chans.length : ℚ)) ≤
          (chans.length : ℚ) * (p.destRect.h / (chans.length : ℚ)) :=
        mul_le_mul_of_nonneg_right h1 hbH
      have h3 : (chans.length : ℚ) * (p.destRect.h / (chans.length : ℚ)) =
          p.destRect.h := by
        rw [mul_comm]
        exact div_mul_cancel₀ _ (ne_of_gt hn0)
      nlinarith
    have hband : p.destRect.y + (k : ℚ) * (p.destRect.h / (chans.length : ℚ))
        ≤ p.destRect.y + (k : ℚ) * (p.destRect.h / (chans.length : ℚ))
          + p.destRect.h / (chans.length : ℚ) := by
      linarith
    unfold columnSegment
    obtain ⟨ha0, hb0⟩ := clampQ_bounds
      (p.destRect.y + (k : ℚ) * (p.destRect.h / (chans.length : ℚ)))
      (p.destRect.y + (k : ℚ) * (p.destRect.h / (chans.length : ℚ))
        + p.destRect.h / (chans.length : ℚ))
      (p.destRect.y + (k : ℚ) * (p.destRect.h / (chans.length : ℚ))
        + p.destRect.h / (chans.length : ℚ) / 2 -
        ((chans.getD k []).getD x ⟨0, 0⟩).max *
          (p.destRect.h / (chans.length : ℚ) / 2) * p.amplitudeScale)
      hband
    obtain ⟨ha1, hb1⟩ := clampQ_bounds
      (p.destRect.y + (k : ℚ) * (p.destRect.h / (chans.length : ℚ)))
      (p.destRect.y + (k : ℚ) * (p.destRect.h / (chans.length : ℚ))
        + p.destRect.h / (chans.length : ℚ))
      (p.destRect.y + (k : ℚ) * (p.destRect.h / (chans.length : ℚ))
        + p.destRect.h / (chans.length : ℚ) / 2 -
        ((chans.getD k []).getD x ⟨0, 0⟩).min *
          (p.destRect.h / (chans.length : ℚ) / 2) * p.amplitudeScale)
      hband
    exact ⟨by linarith, by linarith, by linarith, by linarith⟩

theorem C9_rasterizer_invalid_params_witness :
    rasterize [[ReducedColumn.mk (-1) 1]]
      ⟨0, 0, 1, false, false, ⟨0, 0, 0, 0⟩⟩ = .error .InvalidParams ∧
    (∃ segs, rasterize [[ReducedColumn.mk (-1) 1]]
        ⟨0, 0, 1, false, false, ⟨0, 0, 4, 8⟩⟩ = .ok segs ∧
      ∀ s ∈ segs, (0 : ℚ) ≤ s.y0 ∧ s.y0 ≤ (0 : ℚ) + 8 ∧
        (0 : ℚ) ≤ s.y1 ∧ s.y1 ≤ (0 : ℚ) + 8) :=
  ⟨(C9_rasterizer_invalid_params [[ReducedColumn.mk (-1) 1]]
      ⟨0, 0, 1, false, false, ⟨0, 0, 0, 0⟩⟩).1.mp (Or.inl le_rfl),
   (C9_rasterizer_invalid_params [[ReducedColumn.mk (-1) 1]]
      ⟨0, 0, 1, false, false, ⟨0, 0, 4, 8⟩⟩).2 (by norm_num) (by norm_num)⟩

end ArkWave
